import Mathlib

/-
  Verification of the SPI link controller of betrusted-ec (src/rtl/spi.py).

  The Migen RTL is shallowly embedded: every synchronous block becomes a
  step function on an explicit state record (one call = one clock edge of
  the relevant domain), combinational assignments become plain functions of
  the state, and 16-bit signals become Nat values reduced modulo 2^16 where
  a slice or shift makes the width matter.
-/

namespace Spi

/-- Modelled from the spec: the bounded FIFO queue backing both directions of
the `SpiFifoSlave` link.  The RTL instantiates migen's `SyncFIFOBuffered`,
whose source is a library dependency not present in this repository; the
model follows the spec contract: a fixed-capacity ordered buffer with
`writable` false iff occupancy equals capacity, `readable` false iff
occupancy is zero, a live `level` count, enqueue accepted only when
writable and dequeue only when readable, and no side effect beyond the
occupancy change. -/
structure Fifo where
  cap : Nat
  buf : List Nat
deriving Repr, DecidableEq

/-- Occupancy of the FIFO. -/
def Fifo.level (f : Fifo) : Nat := f.buf.length

/-- Write-side ready predicate: space is available. -/
def Fifo.writable (f : Fifo) : Bool := decide (f.level < f.cap)

/-- Read-side ready predicate: at least one unit is queued. -/
def Fifo.readable (f : Fifo) : Bool := decide (0 < f.level)

/-- Head of the queue as seen on the read port. -/
def Fifo.dout (f : Fifo) : Nat := f.buf.headD 0

/-- One synchronous step of the FIFO given its port signals for this cycle:
`we`/`din` on the write side and `re` on the read side.  A write is accepted
only when writable, a read only when readable; both may happen in the same
cycle. -/
def Fifo.step (f : Fifo) (we : Bool) (din : Nat) (re : Bool) : Fifo :=
  { f with buf := (if re && f.readable then f.buf.tail else f.buf)
                    ++ (if we && f.writable then [din] else []) }

@[simp] lemma Fifo.step_idle (f : Fifo) (d : Nat) : f.step false d false = f := by
  simp [Fifo.step]

@[simp] lemma Fifo.step_cap (f : Fifo) (we : Bool) (din : Nat) (re : Bool) :
    (f.step we din re).cap = f.cap := rfl

lemma Fifo.step_level (f : Fifo) (we : Bool) (din : Nat) (re : Bool) :
    (f.step we din re).level =
      (if re && f.readable then f.level - 1 else f.level)
        + (if we && f.writable then 1 else 0) := by
  cases hr : re && f.readable <;> cases hw : we && f.writable <;>
    simp [Fifo.step, Fifo.level, hr, hw]

lemma Fifo.writable_true_iff (f : Fifo) : f.writable = true ↔ f.level < f.cap := by
  simp [Fifo.writable]

lemma Fifo.readable_true_iff (f : Fifo) : f.readable = true ↔ 0 < f.level := by
  simp [Fifo.readable]

lemma Fifo.step_level_le (f : Fifo) (we : Bool) (din : Nat) (re : Bool)
    (h : f.level ≤ f.cap) : (f.step we din re).level ≤ f.cap := by
  rw [Fifo.step_level]
  cases hw : we && f.writable
  case false => cases hr : re && f.readable <;> simp <;> omega
  case true =>
    have hwr : f.level < f.cap := by
      have := (Bool.and_eq_true we f.writable).mp hw
      exact (Fifo.writable_true_iff f).mp this.2
    cases hr : re && f.readable <;> simp <;> omega

/-- Operations applied to the FIFO through its ports: an attempted enqueue or
an attempted dequeue. -/
inductive FifoOp where
  | push : Nat → FifoOp
  | pop : FifoOp
deriving Repr, DecidableEq

/-- Apply one attempted operation through the FIFO ports. -/
def fifoApply (f : Fifo) (op : FifoOp) : Fifo :=
  match op with
  | .push x => f.step true x false
  | .pop => f.step false 0 true

/-- Run a sequence of attempted operations. -/
def fifoRun (f : Fifo) (ops : List FifoOp) : Fifo := ops.foldl fifoApply f

/-- Number of push operations in a sequence. -/
def countPush : List FifoOp → Nat
  | [] => 0
  | FifoOp.push _ :: rest => countPush rest + 1
  | FifoOp.pop :: rest => countPush rest

/-- Number of pop operations in a sequence. -/
def countPop : List FifoOp → Nat
  | [] => 0
  | FifoOp.push _ :: rest => countPop rest
  | FifoOp.pop :: rest => countPop rest + 1

/-- Sequence condition used by the claim as stated: no push is attempted
while the FIFO is full (pops are unconstrained). -/
def noFullPush (f : Fifo) : List FifoOp → Bool
  | [] => true
  | FifoOp.push x :: rest => f.writable && noFullPush (fifoApply f (.push x)) rest
  | FifoOp.pop :: rest => noFullPush (fifoApply f .pop) rest

/-- Sequence condition of the amended claim: no push is attempted while the
FIFO is full and no pop is attempted while it is empty. -/
def validOps (f : Fifo) : List FifoOp → Bool
  | [] => true
  | FifoOp.push x :: rest => f.writable && validOps (fifoApply f (.push x)) rest
  | FifoOp.pop :: rest => f.readable && validOps (fifoApply f .pop) rest

lemma fifoRun_cap (ops : List FifoOp) : ∀ f : Fifo, (fifoRun f ops).cap = f.cap := by
  induction ops with
  | nil => intro f; rfl
  | cons op rest ih =>
    intro f
    have : fifoRun f (op :: rest) = fifoRun (fifoApply f op) rest := rfl
    rw [this, ih]
    cases op <;> rfl

lemma fifoRun_level_le (ops : List FifoOp) :
    ∀ f : Fifo, f.level ≤ f.cap → (fifoRun f ops).level ≤ (fifoRun f ops).cap := by
  induction ops with
  | nil => intro f h; exact h
  | cons op rest ih =>
    intro f h
    have hstep : (fifoApply f op).level ≤ (fifoApply f op).cap := by
      cases op <;> simpa [fifoApply] using Fifo.step_level_le f _ _ _ h
    exact ih (fifoApply f op) hstep

lemma validOps_level (ops : List FifoOp) :
    ∀ f : Fifo, validOps f ops = true →
      (fifoRun f ops).level + countPop ops = f.level + countPush ops := by
  induction ops with
  | nil => intro f _; simp [fifoRun, countPop, countPush]
  | cons op rest ih =>
    intro f hv
    cases op with
    | push x =>
      have hv2 : f.writable = true ∧ validOps (fifoApply f (.push x)) rest = true := by
        simpa [validOps, Bool.and_eq_true] using hv
      have hrun : fifoRun f (FifoOp.push x :: rest) = fifoRun (fifoApply f (.push x)) rest := rfl
      have hlev : (fifoApply f (.push x)).level = f.level + 1 := by
        simp [fifoApply, Fifo.step_level, hv2.1]
      have := ih (fifoApply f (.push x)) hv2.2
      rw [hrun, countPop, countPush]
      omega
    | pop =>
      have hv2 : f.readable = true ∧ validOps (fifoApply f .pop) rest = true := by
        simpa [validOps, Bool.and_eq_true] using hv
      have hrun : fifoRun f (FifoOp.pop :: rest) = fifoRun (fifoApply f .pop) rest := rfl
      have hpos : 0 < f.level := (Fifo.readable_true_iff f).mp hv2.1
      have hlev : (fifoApply f .pop).level = f.level - 1 := by
        simp [fifoApply, Fifo.step_level, hv2.1]
      have := ih (fifoApply f .pop) hv2.2
      rw [hrun, countPop, countPush]
      omega

/-- C2 counterexample: the claim as stated only forbids pushes while full, so
a pop attempted while empty is allowed; after push, pop, pop, push on an
initially empty capacity-1280 queue (the capacity of both instances) the
level is 1 while pushes minus pops is 2 - 2 = 0. -/
theorem fifo_level_claim_counterexample :
    noFullPush (Fifo.mk 1280 [])
        [FifoOp.push 0, FifoOp.pop, FifoOp.pop, FifoOp.push 0] = true
    ∧ ¬ ((fifoRun (Fifo.mk 1280 [])
            [FifoOp.push 0, FifoOp.pop, FifoOp.pop, FifoOp.push 0]).level
          = countPush [FifoOp.push 0, FifoOp.pop, FifoOp.pop, FifoOp.push 0]
            - countPop [FifoOp.push 0, FifoOp.pop, FifoOp.pop, FifoOp.push 0]) := by
  decide

/-- C2 (amended): for every sequence of pushes and pops on an initially empty
capacity-1280 queue (either `SyncFIFOBuffered` instance of `SpiFifoSlave`),
unconditionally — push-while-full sequences included — the level never
exceeds the capacity (and, being a natural number, is never negative),
`writable` is false iff the level equals the capacity, and `readable` is
false iff the level is zero; and whenever additionally no push is attempted
while full and no pop is attempted while empty, the level equals the number
of pushes minus the number of pops. -/
theorem fifo_level_tracks_pushes_minus_pops (ops : List FifoOp) :
    (validOps (Fifo.mk 1280 []) ops = true →
        (fifoRun (Fifo.mk 1280 []) ops).level + countPop ops = countPush ops
        ∧ (fifoRun (Fifo.mk 1280 []) ops).level = countPush ops - countPop ops)
    ∧ (fifoRun (Fifo.mk 1280 []) ops).level ≤ 1280
    ∧ ((fifoRun (Fifo.mk 1280 []) ops).writable = false
        ↔ (fifoRun (Fifo.mk 1280 []) ops).level = 1280)
    ∧ ((fifoRun (Fifo.mk 1280 []) ops).readable = false
        ↔ (fifoRun (Fifo.mk 1280 []) ops).level = 0) := by
  have hcap : (fifoRun (Fifo.mk 1280 []) ops).cap = 1280 := fifoRun_cap ops _
  have hle : (fifoRun (Fifo.mk 1280 []) ops).level ≤ 1280 := by
    have := fifoRun_level_le ops (Fifo.mk 1280 []) (by simp [Fifo.level])
    omega
  refine ⟨fun hv => ?_, hle, ?_, ?_⟩
  · have hbal := validOps_level ops (Fifo.mk 1280 []) hv
    have hlev0 : (Fifo.mk 1280 ([] : List Nat)).level = 0 := rfl
    exact ⟨by omega, by omega⟩
  · rw [show ((fifoRun (Fifo.mk 1280 []) ops).writable = false)
        ↔ ¬ ((fifoRun (Fifo.mk 1280 []) ops).writable = true) by simp]
    rw [Fifo.writable_true_iff, hcap]
    omega
  · rw [show ((fifoRun (Fifo.mk 1280 []) ops).readable = false)
        ↔ ¬ ((fifoRun (Fifo.mk 1280 []) ops).readable = true) by simp]
    rw [Fifo.readable_true_iff]
    omega

/-- Witness for the amended C2 theorem on a concrete sequence that also
satisfies the validity proviso of the level-accounting clause. -/
theorem fifo_level_tracks_pushes_minus_pops_witness :
    validOps (Fifo.mk 1280 []) [FifoOp.push 5, FifoOp.push 6, FifoOp.pop] = true
    ∧ ((validOps (Fifo.mk 1280 []) [FifoOp.push 5, FifoOp.push 6, FifoOp.pop] = true →
          (fifoRun (Fifo.mk 1280 []) [FifoOp.push 5, FifoOp.push 6, FifoOp.pop]).level
              + countPop [FifoOp.push 5, FifoOp.push 6, FifoOp.pop]
            = countPush [FifoOp.push 5, FifoOp.push 6, FifoOp.pop]
          ∧ (fifoRun (Fifo.mk 1280 []) [FifoOp.push 5, FifoOp.push 6, FifoOp.pop]).level
            = countPush [FifoOp.push 5, FifoOp.push 6, FifoOp.pop]
                - countPop [FifoOp.push 5, FifoOp.push 6, FifoOp.pop])
      ∧ (fifoRun (Fifo.mk 1280 []) [FifoOp.push 5, FifoOp.push 6, FifoOp.pop]).level ≤ 1280
      ∧ ((fifoRun (Fifo.mk 1280 []) [FifoOp.push 5, FifoOp.push 6, FifoOp.pop]).writable = false
          ↔ (fifoRun (Fifo.mk 1280 [])
                [FifoOp.push 5, FifoOp.push 6, FifoOp.pop]).level = 1280)
      ∧ ((fifoRun (Fifo.mk 1280 []) [FifoOp.push 5, FifoOp.push 6, FifoOp.pop]).readable = false
          ↔ (fifoRun (Fifo.mk 1280 [])
                [FifoOp.push 5, FifoOp.push 6, FifoOp.pop]).level = 0)) :=
  ⟨by decide, fifo_level_tracks_pushes_minus_pops
      [FifoOp.push 5, FifoOp.push 6, FifoOp.pop]⟩

/-- One synchronous step of the `StickyBit` module (src/rtl/spi.py lines
112-128): if `clear` then the bit resets to 0, otherwise if `flag` it is set
to 1, otherwise it holds its value. -/
def stickyStep (bit flag clear : Bool) : Bool :=
  if clear then false else if flag then true else bit

/-- State of the four sticky fault flags of `SpiFifoSlave`: the `bit` outputs
of the `rx_over`, `rx_under`, `tx_over` and `tx_under` `StickyBit` instances. -/
structure ErrFlags where
  rx_over : Bool
  rx_under : Bool
  tx_over : Bool
  tx_under : Bool
deriving Repr, DecidableEq

/-- Per-cycle inputs of the four sticky flags: the shared `clrerr` control
pulse (wired to the `clear` input of all four instances) and the four `flag`
set conditions. -/
structure ErrIn where
  clrerr : Bool
  rx_over_flag : Bool
  rx_under_flag : Bool
  tx_over_flag : Bool
  tx_under_flag : Bool
deriving Repr, DecidableEq

/-- One synchronous step of the four sticky flags, each a `StickyBit` whose
`clear` input is the single `clrerr` field of the control register. -/
def errStep (e : ErrFlags) (i : ErrIn) : ErrFlags :=
  { rx_over := stickyStep e.rx_over i.rx_over_flag i.clrerr
  , rx_under := stickyStep e.rx_under i.rx_under_flag i.clrerr
  , tx_over := stickyStep e.tx_over i.tx_over_flag i.clrerr
  , tx_under := stickyStep e.tx_under i.tx_under_flag i.clrerr }

/-- Run the four sticky flags over a sequence of cycles. -/
def errRun (e : ErrFlags) (ins : List ErrIn) : ErrFlags := ins.foldl errStep e

lemma stickyStep_persists (b f : Bool) (hb : b = true) :
    stickyStep b f false = true := by
  cases f <;> simp [stickyStep, hb]

lemma errRun_persists (ins : List ErrIn) :
    ∀ e : ErrFlags, (∀ j ∈ ins, j.clrerr = false) →
      (e.rx_over = true → (errRun e ins).rx_over = true)
      ∧ (e.rx_under = true → (errRun e ins).rx_under = true)
      ∧ (e.tx_over = true → (errRun e ins).tx_over = true)
      ∧ (e.tx_under = true → (errRun e ins).tx_under = true) := by
  induction ins with
  | nil => intro e _; exact ⟨fun h => h, fun h => h, fun h => h, fun h => h⟩
  | cons j rest ih =>
    intro e hno
    have hj : j.clrerr = false := hno j (List.mem_cons_self j rest)
    have hrest : ∀ i ∈ rest, i.clrerr = false := fun i hi => hno i (List.mem_cons_of_mem j hi)
    have hrun : errRun e (j :: rest) = errRun (errStep e j) rest := rfl
    have ihs := ih (errStep e j) hrest
    refine ⟨fun h => ?_, fun h => ?_, fun h => ?_, fun h => ?_⟩ <;> rw [hrun]
    · exact ihs.1 (by simpa [errStep, hj] using stickyStep_persists _ j.rx_over_flag h)
    · exact ihs.2.1 (by simpa [errStep, hj] using stickyStep_persists _ j.rx_under_flag h)
    · exact ihs.2.2.1 (by simpa [errStep, hj] using stickyStep_persists _ j.tx_over_flag h)
    · exact ihs.2.2.2 (by simpa [errStep, hj] using stickyStep_persists _ j.tx_under_flag h)

/-- C3: each of the four sticky fault flags, once set, stays set across an
arbitrary sequence of further cycles in which the host does not issue the
clear-errors action, whatever fault conditions fire meanwhile; and a single
cycle with `clrerr` asserted resets all four flags simultaneously, never a
proper subset, whatever fault conditions fire in that same cycle. -/
theorem sticky_flags_persist_and_clear_together (e : ErrFlags) (ins : List ErrIn)
    (i : ErrIn) (hno : ∀ j ∈ ins, j.clrerr = false) (hclr : i.clrerr = true) :
    ((e.rx_over = true → (errRun e ins).rx_over = true)
      ∧ (e.rx_under = true → (errRun e ins).rx_under = true)
      ∧ (e.tx_over = true → (errRun e ins).tx_over = true)
      ∧ (e.tx_under = true → (errRun e ins).tx_under = true))
    ∧ errStep e i = ErrFlags.mk false false false false := by
  refine ⟨errRun_persists ins e hno, ?_⟩
  simp [errStep, stickyStep, hclr]

/-- Witness for C3 at a concrete state and input sequence. -/
theorem sticky_flags_persist_and_clear_together_witness :
    (∀ j ∈ [ErrIn.mk false false true false false, ErrIn.mk false true false true true],
        j.clrerr = false)
    ∧ (ErrIn.mk true true true true true).clrerr = true
    ∧ (((ErrFlags.mk true false true false).rx_over = true →
          (errRun (ErrFlags.mk true false true false)
            [ErrIn.mk false false true false false,
             ErrIn.mk false true false true true]).rx_over = true)
        ∧ ((ErrFlags.mk true false true false).rx_under = true →
          (errRun (ErrFlags.mk true false true false)
            [ErrIn.mk false false true false false,
             ErrIn.mk false true false true true]).rx_under = true)
        ∧ ((ErrFlags.mk true false true false).tx_over = true →
          (errRun (ErrFlags.mk true false true false)
            [ErrIn.mk false false true false false,
             ErrIn.mk false true false true true]).tx_over = true)
        ∧ ((ErrFlags.mk true false true false).tx_under = true →
          (errRun (ErrFlags.mk true false true false)
            [ErrIn.mk false false true false false,
             ErrIn.mk false true false true true]).tx_under = true))
      ∧ errStep (ErrFlags.mk true false true false) (ErrIn.mk true true true true true)
          = ErrFlags.mk false false false false :=
  ⟨by decide, rfl,
    sticky_flags_persist_and_clear_together (ErrFlags.mk true false true false)
      [ErrIn.mk false false true false false, ErrIn.mk false true false true true]
      (ErrIn.mk true true true true true) (by decide) rfl⟩

/-- C9: in the `StickyBit` primitive the `clear` input has priority over the
`flag` input: when both are asserted in the same cycle the bit is 0 in the
next state, and it stays 0 on a following quiet cycle, so a fault firing in
the very cycle of a clear-errors action is lost unless it recurs. -/
theorem stickyBit_clear_wins_over_flag :
    ∀ b : Bool, stickyStep b true true = false
      ∧ stickyStep (stickyStep b true true) false false = false := by
  decide

/-- Sys-domain state of the `SpiFifoSlave` frame-end commit path (src/rtl/spi.py
lines 240-272): both FIFOs, the `bit` outputs of the `rx_over` and `tx_under`
`StickyBit` instances, and the `tip_d` register used for the falling-edge
detector of transaction-in-progress. -/
structure SlaveCommit where
  rx_fifo : Fifo
  tx_fifo : Fifo
  rx_over : Bool
  tx_under : Bool
  tip_d : Bool
deriving Repr, DecidableEq

/-- One sys-domain clock step of the commit path.  Combinational wiring from
the source: `donepulse = ~tip_r & tip_d`; `rx_fifo.din = txrx`,
`rx_fifo.we = donepulse`, `tx_fifo.re = donepulse`;
`rx_over.flag = ~rx_fifo.writable & donepulse`,
`tx_under.flag = ~tx_fifo.readable & donepulse`, both cleared by `clrerr`. -/
def commitStep (s : SlaveCommit) (tip_r : Bool) (txrx : Nat) (clrerr : Bool) :
    SlaveCommit :=
  let donepulse := !tip_r && s.tip_d
  { rx_fifo := s.rx_fifo.step donepulse txrx false
  , tx_fifo := s.tx_fifo.step false 0 donepulse
  , rx_over := stickyStep s.rx_over (!s.rx_fifo.writable && donepulse) clrerr
  , tx_under := stickyStep s.tx_under (!s.tx_fifo.readable && donepulse) clrerr
  , tip_d := tip_r }

/-- C1: on a frame end (`tip_d` high and `tip_r` now low, i.e. the donepulse
cycle, with no clear-errors issued): if the RX FIFO is writable the shifted-in
word `txrx` is appended to it and `rx_over` is unchanged, otherwise the word
is discarded, the RX FIFO (hence its occupancy) is unchanged and `rx_over`
latches; simultaneously, if the TX FIFO is non-empty its head is dequeued and
`tx_under` is unchanged, otherwise the TX FIFO is unchanged and `tx_under`
latches. -/
theorem slave_commit_on_frame_end (s : SlaveCommit) (txrx : Nat)
    (hd : s.tip_d = true) :
    ((s.rx_fifo.writable = true →
        (commitStep s false txrx false).rx_fifo.buf = s.rx_fifo.buf ++ [txrx]
        ∧ (commitStep s false txrx false).rx_over = s.rx_over)
      ∧ (s.rx_fifo.writable = false →
        (commitStep s false txrx false).rx_fifo = s.rx_fifo
        ∧ (commitStep s false txrx false).rx_over = true))
    ∧ ((s.tx_fifo.readable = true →
        (commitStep s false txrx false).tx_fifo.buf = s.tx_fifo.buf.tail
        ∧ (commitStep s false txrx false).tx_under = s.tx_under)
      ∧ (s.tx_fifo.readable = false →
        (commitStep s false txrx false).tx_fifo = s.tx_fifo
        ∧ (commitStep s false txrx false).tx_under = true)) := by
  refine ⟨⟨fun hw => ?_, fun hw => ?_⟩, ⟨fun hr => ?_, fun hr => ?_⟩⟩
  · exact ⟨by simp [commitStep, Fifo.step, hd, hw],
      by simp [commitStep, stickyStep, hd, hw]⟩
  · exact ⟨by simp [commitStep, Fifo.step, hd, hw],
      by simp [commitStep, stickyStep, hd, hw]⟩
  · exact ⟨by simp [commitStep, Fifo.step, hd, hr],
      by simp [commitStep, stickyStep, hd, hr]⟩
  · exact ⟨by simp [commitStep, Fifo.step, hd, hr],
      by simp [commitStep, stickyStep, hd, hr]⟩

/-- Witness for C1 at a concrete pre-state covering both the writable RX and
readable TX cases. -/
theorem slave_commit_on_frame_end_witness :
    (Fifo.mk 4 [9]).writable = true ∧ (Fifo.mk 4 [7, 8]).readable = true
    ∧ (commitStep (SlaveCommit.mk (Fifo.mk 4 [9]) (Fifo.mk 4 [7, 8]) false false true)
          false 3 false).rx_fifo.buf = [9, 3]
    ∧ (commitStep (SlaveCommit.mk (Fifo.mk 4 [9]) (Fifo.mk 4 [7, 8]) false false true)
          false 3 false).tx_fifo.buf = [8] := by
  have h := slave_commit_on_frame_end
    (SlaveCommit.mk (Fifo.mk 4 [9]) (Fifo.mk 4 [7, 8]) false false true) 3 rfl
  exact ⟨by decide, by decide, h.1.1 (by decide) |>.1, h.2.1 (by decide) |>.1⟩

/-- State of the `SpiFifoSlave` RX bus read responder (src/rtl/spi.py lines
190-213) together with its FIFO: the registers `bus_read_d`, `rd_ack_pipe`,
`rd_ack`, the registered `bus.dat_r` output, the registered `rx_fifo.re`
strobe, the registered `rx_under.flag` request (assigned only in the underrun
branch, so it holds its value elsewhere) and the `rx_under` sticky bit. -/
structure RxBus where
  rx_fifo : Fifo
  bus_read_d : Bool
  rd_ack_pipe : Bool
  rd_ack : Bool
  dat_r : Nat
  re : Bool
  under_flag : Bool
  under_bit : Bool
deriving Repr, DecidableEq

/-- One sys-domain clock step of the read responder.  `bus_read` is the
combinational `bus.cyc & bus.stb & ~bus.we & (bus.cti == 0)`; on its rising
edge, if the FIFO is readable the head is captured into `dat_r` and a one-shot
`re` is issued, otherwise the sentinel 0xdeadbeef is returned, no `re` is
issued, and the underrun flag request is raised.  The FIFO consumes the
registered `re` of the previous cycle. -/
def rxBusStep (s : RxBus) (cyc stb we : Bool) (cti : Nat) (clrerr : Bool) : RxBus :=
  let bus_read := cyc && stb && !we && decide (cti = 0)
  let edge := bus_read && !s.bus_read_d
  { rx_fifo := s.rx_fifo.step false 0 s.re
  , bus_read_d := bus_read
  , rd_ack_pipe := edge
  , rd_ack := s.rd_ack_pipe
  , dat_r := if edge then (if s.rx_fifo.readable then s.rx_fifo.dout else 0xdeadbeef)
             else s.dat_r
  , re := if edge then s.rx_fifo.readable else false
  , under_flag := if edge && !s.rx_fifo.readable then true else s.under_flag
  , under_bit := stickyStep s.under_bit s.under_flag clrerr }

/-- C5: a host-bus read issued while the RX FIFO is empty (not readable)
returns the sentinel 0xdeadbeef rather than any queued content, raises the
underrun flag which latches into the `rx_under` sticky bit on the following
cycle, performs no dequeue (the FIFO, hence its occupancy, is unchanged over
both cycles), and is still acknowledged (`rd_ack` rises, so the caller is not
blocked). -/
theorem rx_read_empty_returns_sentinel (s : RxBus)
    (hfresh : s.bus_read_d = false) (hempty : s.rx_fifo.readable = false) :
    (rxBusStep s true true false 0 false).dat_r = 0xdeadbeef
    ∧ (rxBusStep s true true false 0 false).under_flag = true
    ∧ (rxBusStep s true true false 0 false).re = false
    ∧ (rxBusStep s true true false 0 false).rx_fifo = s.rx_fifo
    ∧ (rxBusStep (rxBusStep s true true false 0 false) true true false 0 false).rx_fifo
        = s.rx_fifo
    ∧ (rxBusStep (rxBusStep s true true false 0 false) true true false 0 false).under_bit
        = true
    ∧ (rxBusStep (rxBusStep s true true false 0 false) true true false 0 false).rd_ack
        = true := by
  have hnopop : ∀ r : Bool, s.rx_fifo.step false 0 r = s.rx_fifo := by
    intro r
    cases r <;> simp [Fifo.step, hempty]
  refine ⟨?_, ?_, ?_, ?_, ?_, ?_, ?_⟩ <;>
    simp [rxBusStep, stickyStep, hfresh, hempty, hnopop]

/-- Witness for C5 at a concrete responder state with an empty RX FIFO. -/
theorem rx_read_empty_returns_sentinel_witness :
    (RxBus.mk (Fifo.mk 1280 []) false false false 0 false false false).bus_read_d = false
    ∧ (RxBus.mk (Fifo.mk 1280 []) false false false 0 false false false).rx_fifo.readable
        = false
    ∧ (rxBusStep (RxBus.mk (Fifo.mk 1280 []) false false false 0 false false false)
          true true false 0 false).dat_r = 0xdeadbeef
    ∧ (rxBusStep (rxBusStep
          (RxBus.mk (Fifo.mk 1280 []) false false false 0 false false false)
          true true false 0 false) true true false 0 false).rd_ack = true := by
  have h := rx_read_empty_returns_sentinel
    (RxBus.mk (Fifo.mk 1280 []) false false false 0 false false false) rfl (by decide)
  exact ⟨rfl, by decide, h.1, h.2.2.2.2.2.2⟩

/-- State of the `SpiFifoSlave` TX bus write responder (src/rtl/spi.py lines
223-238) together with its FIFO: the registered `tx_fifo.we` and `tx_fifo.din`
port signals, the `wr_ack` register driving `bus.ack` for writes, the
registered `tx_over.flag` request (assigned only in the overflow branch, so it
holds its value elsewhere) and the `tx_over` sticky bit. -/
structure TxBus where
  tx_fifo : Fifo
  we : Bool
  din : Nat
  wr_ack : Bool
  over_flag : Bool
  over_bit : Bool
deriving Repr, DecidableEq

/-- One sys-domain clock step of the write responder.  A write request is
`bus.cyc & bus.stb & bus.we & ~bus.ack`, where `bus.ack` for a write cycle is
the combinational copy of `wr_ack`; if the FIFO is writable the data is staged
into `din`/`we` (the FIFO consumes the registered `we` of the previous cycle)
and the write is acknowledged, otherwise the overflow flag request is raised
and nothing is enqueued. -/
def txBusStep (s : TxBus) (cyc stb buswe : Bool) (dat_w : Nat) (clrerr : Bool) : TxBus :=
  let req := cyc && stb && buswe && !s.wr_ack
  { tx_fifo := s.tx_fifo.step s.we s.din false
  , we := req && s.tx_fifo.writable
  , din := if req && s.tx_fifo.writable then dat_w else s.din
  , wr_ack := req && s.tx_fifo.writable
  , over_flag := if req && !s.tx_fifo.writable then true else s.over_flag
  , over_bit := stickyStep s.over_bit s.over_flag clrerr }

/-- C6: a host-bus write issued while the TX FIFO is full (not writable) is
rejected: no write strobe is issued and the FIFO, hence its occupancy and
contents, is unchanged over both cycles, while the overflow flag request is
raised and latches into the `tx_over` sticky bit on the following cycle. -/
theorem tx_write_full_rejected (s : TxBus) (dat : Nat)
    (hfull : s.tx_fifo.writable = false) (hwe : s.we = false)
    (hack : s.wr_ack = false) :
    (txBusStep s true true true dat false).we = false
    ∧ (txBusStep s true true true dat false).over_flag = true
    ∧ (txBusStep s true true true dat false).tx_fifo = s.tx_fifo
    ∧ (txBusStep (txBusStep s true true true dat false) true true true dat false).tx_fifo
        = s.tx_fifo
    ∧ (txBusStep (txBusStep s true true true dat false) true true true dat false).over_bit
        = true := by
  refine ⟨?_, ?_, ?_, ?_, ?_⟩ <;>
    simp [txBusStep, stickyStep, hfull, hwe, hack]

/-- Witness for C6 at a concrete responder state with a full TX FIFO. -/
theorem tx_write_full_rejected_witness :
    (TxBus.mk (Fifo.mk 2 [4, 5]) false 0 false false false).tx_fifo.writable = false
    ∧ (TxBus.mk (Fifo.mk 2 [4, 5]) false 0 false false false).we = false
    ∧ (TxBus.mk (Fifo.mk 2 [4, 5]) false 0 false false false).wr_ack = false
    ∧ (txBusStep (TxBus.mk (Fifo.mk 2 [4, 5]) false 0 false false false)
          true true true 77 false).tx_fifo = Fifo.mk 2 [4, 5]
    ∧ (txBusStep (txBusStep (TxBus.mk (Fifo.mk 2 [4, 5]) false 0 false false false)
          true true true 77 false) true true true 77 false).over_bit = true := by
  have h := tx_write_full_rejected
    (TxBus.mk (Fifo.mk 2 [4, 5]) false 0 false false false) 77 (by decide) rfl rfl
  exact ⟨by decide, rfl, rfl, h.2.2.1, h.2.2.2.2⟩

/-- Modelled from the spec: the `spi_avail` event source of `SpiFifoSlave` is
a litex `EventSourcePulse` (library code not in this repository), documented
in the source and the spec as rising-edge triggered; its trigger is wired
combinationally to `rx_fifo.readable`.  The model keeps the previous sampled
trigger in `trig_d` and counts one firing for every cycle in which the
trigger is high while its delayed copy is low. -/
structure AvailMon where
  rx_fifo : Fifo
  trig_d : Bool
  fires : Nat
deriving Repr, DecidableEq

/-- Per-cycle FIFO port inputs seen by the availability monitor. -/
structure AvailIn where
  we : Bool
  din : Nat
  re : Bool
deriving Repr, DecidableEq

/-- One clock step of the RX FIFO with the edge-triggered availability event:
the trigger is `rx_fifo.readable` of the current state, and a firing is
counted exactly on its rising edge. -/
def availStep (s : AvailMon) (i : AvailIn) : AvailMon :=
  { rx_fifo := s.rx_fifo.step i.we i.din i.re
  , trig_d := s.rx_fifo.readable
  , fires := s.fires + (if s.rx_fifo.readable && !s.trig_d then 1 else 0) }

/-- Run the availability monitor over a sequence of cycles. -/
def availRun (s : AvailMon) (ins : List AvailIn) : AvailMon := ins.foldl availStep s

lemma availRun_stable (ins : List AvailIn) :
    ∀ s : AvailMon, (∀ i ∈ ins, i.re = false) →
      s.rx_fifo.readable = true → s.trig_d = true →
      (availRun s ins).fires = s.fires
      ∧ (availRun s ins).rx_fifo.readable = true
      ∧ (availRun s ins).trig_d = true := by
  induction ins with
  | nil => intro s _ hr ht; exact ⟨rfl, hr, ht⟩
  | cons i rest ih =>
    intro s hno hr ht
    have hi : i.re = false := hno i (List.mem_cons_self i rest)
    have hrest : ∀ j ∈ rest, j.re = false := fun j hj => hno j (List.mem_cons_of_mem i hj)
    have hrun : availRun s (i :: rest) = availRun (availStep s i) rest := rfl
    have hpos : 0 < s.rx_fifo.level := (Fifo.readable_true_iff _).mp hr
    have hread : (availStep s i).rx_fifo.readable = true := by
      rw [Fifo.readable_true_iff]
      show 0 < (s.rx_fifo.step i.we i.din i.re).level
      rw [Fifo.step_level, hi]
      cases hw : i.we && s.rx_fifo.writable
      case false => simp [hw]; omega
      case true => simp [hw]
    have hfires : (availStep s i).fires = s.fires := by
      simp [availStep, hr, ht]
    have htd : (availStep s i).trig_d = true := by simp [availStep, hr]
    have := ih (availStep s i) hrest hread htd
    rw [hrun]
    exact ⟨by rw [this.1, hfires], this.2.1, this.2.2⟩

/-- C7: starting from an empty capacity-1280 RX FIFO in steady state, two
successful frame commits (pushes of words `a` then `b`, with no intervening
pop) followed by an arbitrary further sequence of cycles with no pop produce
exactly one firing of the edge-triggered `spi_avail` event: it fires on the
empty-to-non-empty transition and never again while the FIFO stays
non-empty. -/
theorem avail_event_fires_once (a b : Nat) (tail : List AvailIn)
    (htail : ∀ i ∈ tail, i.re = false) :
    (availRun (AvailMon.mk (Fifo.mk 1280 []) false 0)
        (AvailIn.mk true a false :: AvailIn.mk true b false :: tail)).fires = 1 := by
  have h1 : availStep (AvailMon.mk (Fifo.mk 1280 []) false 0) (AvailIn.mk true a false)
      = AvailMon.mk (Fifo.mk 1280 [a]) false 0 := by
    simp [availStep, Fifo.step, Fifo.readable, Fifo.level, Fifo.writable]
  have h2 : availStep (AvailMon.mk (Fifo.mk 1280 [a]) false 0) (AvailIn.mk true b false)
      = AvailMon.mk (Fifo.mk 1280 [a, b]) true 1 := by
    simp [availStep, Fifo.step, Fifo.readable, Fifo.level, Fifo.writable]
  have hrun : availRun (AvailMon.mk (Fifo.mk 1280 []) false 0)
      (AvailIn.mk true a false :: AvailIn.mk true b false :: tail)
      = availRun (AvailMon.mk (Fifo.mk 1280 [a, b]) true 1) tail := by
    have e1 : availRun (AvailMon.mk (Fifo.mk 1280 []) false 0)
        (AvailIn.mk true a false :: AvailIn.mk true b false :: tail)
        = availRun (availStep (availStep (AvailMon.mk (Fifo.mk 1280 []) false 0)
            (AvailIn.mk true a false)) (AvailIn.mk true b false)) tail := rfl
    rw [e1, h1, h2]
  rw [hrun]
  exact (availRun_stable tail (AvailMon.mk (Fifo.mk 1280 [a, b]) true 1) htail
    rfl rfl).1

/-- Witness for C7 with concrete words and a concrete no-pop tail. -/
theorem avail_event_fires_once_witness :
    (∀ i ∈ [AvailIn.mk false 0 false, AvailIn.mk true 9 false], i.re = false)
    ∧ (availRun (AvailMon.mk (Fifo.mk 1280 []) false 0)
        (AvailIn.mk true 3 false :: AvailIn.mk true 4 false ::
          [AvailIn.mk false 0 false, AvailIn.mk true 9 false])).fires = 1 :=
  ⟨by decide, avail_event_fires_once 3 4
    [AvailIn.mk false 0 false, AvailIn.mk true 9 false] (by decide)⟩

/-- Value read from the `SpiFifoSlave` STATUS register, assembled from its
CSR fields in declaration order (src/rtl/spi.py lines 149-160): bit 0 `tip`,
bit 1 `rx_avail`, bit 2 `rx_over`, bit 3 `rx_under`, bits 4-15 `rx_level`
(12 bits), bit 16 `tx_avail`, bit 17 `tx_empty`, bits 18-29 `tx_level`
(12 bits), bit 30 `tx_over`, bit 31 `tx_under`.  The source drives `tip`,
`rx_avail` (from `rx_fifo.readable`), `rx_over`, `rx_under`, `rx_level`
(from `rx_fifo.level`), `tx_over` and `tx_under`, but never drives
`tx_avail`, `tx_empty` or `tx_level`, which therefore hold their reset
value 0; the `tx` FIFO argument is taken only to state how the read value
relates to the actual TX FIFO. -/
def slaveStatusWord (tip : Bool) (rx : Fifo) (rx_over rx_under : Bool)
    (tx : Fifo) (tx_over tx_under : Bool) : Nat :=
  (if tip then 1 else 0)
  + 2 * (if rx.readable then 1 else 0)
  + 4 * (if rx_over then 1 else 0)
  + 8 * (if rx_under then 1 else 0)
  + 16 * (rx.level % 4096)
  + 65536 * 0
  + 131072 * 0
  + 262144 * (0 % 4096)
  + 1073741824 * (if tx_over then 1 else 0)
  + 2147483648 * (if tx_under then 1 else 0)

/-- C8 failing input: with the TX FIFO empty (so it is writable, is empty and
has level 0) the STATUS read has bit 16 (`tx_avail`) and bit 17 (`tx_empty`)
clear, because those fields are declared but never driven in the source, even
though by the claim and by the fields' own descriptions bit 16 should be 1
(space available) and bit 17 should be 1 (empty); the driven bits of the same
read (`tip`, `rx_avail`, `rx_level`) do show the live state. -/
theorem status_tx_fields_never_driven :
    (Fifo.mk 1280 ([] : List Nat)).writable = true
    ∧ (Fifo.mk 1280 ([] : List Nat)).level = 0
    ∧ (slaveStatusWord false (Fifo.mk 1280 [7]) false false
        (Fifo.mk 1280 []) false false).testBit 16 = false
    ∧ (slaveStatusWord false (Fifo.mk 1280 [7]) false false
        (Fifo.mk 1280 []) false false).testBit 17 = false
    ∧ (slaveStatusWord false (Fifo.mk 1280 [7]) false false
        (Fifo.mk 1280 []) false false).testBit 1 = true
    ∧ (slaveStatusWord false (Fifo.mk 1280 [7]) false false
        (Fifo.mk 1280 []) false false).testBit 4 = true
    ∧ (slaveStatusWord false (Fifo.mk 1280 [7]) false false
        (Fifo.mk 1280 []) false false).testBit 0 = false := by
  decide

/-- State of the spi-clock-domain registers of `SpiMaster` (src/rtl/spi.py
lines 55-110): the FSM state (`run` is true in state RUN, false in IDLE), the
`go_d` register of the rising-edge detector on the synchronized `go` bit, the
`tx_r` and `rx_r` shift registers, the 4-bit `spicount` down counter, and the
registered `tip_r`, `txfull_r`, `csn_r` and `mosi` outputs. -/
structure MasterState where
  run : Bool
  go_d : Bool
  tx_r : Nat
  rx_r : Nat
  spicount : Nat
  tip_r : Bool
  txfull_r : Bool
  csn_r : Bool
  mosi : Bool
deriving Repr, DecidableEq

/-- Per-spi-clock inputs of the `SpiMaster` FSM: the synchronized `go` bit
`go_r`, the synchronized `tx.re` write strobe `tx_written`, the sampled
`miso` line, and the `tx` CSR storage (stable during a transaction per the
source comment). -/
structure MasterIn where
  go_r : Bool
  tx_written : Bool
  miso : Bool
  tx_storage : Nat
deriving Repr, DecidableEq

/-- One step of the 16-bit receive shift register:
`Cat(miso, rx_r[0:15])` keeps the low 15 bits shifted up with the sampled
`miso` in bit 0. -/
def rxShift (r : Nat) (m : Bool) : Nat := r % 32768 * 2 + (if m then 1 else 0)

/-- One spi-domain clock step of the `SpiMaster` FSM.  In IDLE a rising edge
of the synchronized `go` (`go_r & ~go_d`) loads the shift register with the
TX word shifted left once (`Cat(0, tx.storage[0:15])`), presets the counter
to 15, asserts transaction-in-progress, drives chip select low, puts the TX
MSB on `mosi` and samples `miso`; otherwise IDLE deasserts `tip` and `csn`
and latches `txfull` on a TX write.  In RUN, while the counter is positive
one bit is shifted out of `tx_r` and one bit of `miso` is shifted into
`rx_r`; when the counter reaches zero chip select and `tip` deassert and the
FSM returns to IDLE.  In every cycle `go_d` samples `go_r`. -/
def masterStep (s : MasterState) (i : MasterIn) : MasterState :=
  if s.run = false then
    if i.go_r && !s.go_d then
      { run := true, go_d := i.go_r, tx_r := i.tx_storage % 32768 * 2
      , rx_r := rxShift s.rx_r i.miso, spicount := 15, tip_r := true
      , txfull_r := false, csn_r := false, mosi := i.tx_storage.testBit 15 }
    else
      { run := s.run, go_d := i.go_r, tx_r := s.tx_r, rx_r := s.rx_r
      , spicount := s.spicount, tip_r := false
      , txfull_r := if i.tx_written then true else s.txfull_r
      , csn_r := true, mosi := s.mosi }
  else
    if 0 < s.spicount then
      { run := s.run, go_d := i.go_r, tx_r := s.tx_r % 32768 * 2
      , rx_r := rxShift s.rx_r i.miso, spicount := s.spicount - 1
      , tip_r := s.tip_r, txfull_r := s.txfull_r, csn_r := s.csn_r
      , mosi := s.tx_r.testBit 15 }
    else
      { run := false, go_d := i.go_r, tx_r := s.tx_r, rx_r := s.rx_r
      , spicount := s.spicount, tip_r := false, txfull_r := s.txfull_r
      , csn_r := true, mosi := s.mosi }

/-- Run the `SpiMaster` FSM over a sequence of spi-clock cycles. -/
def masterRun (s : MasterState) (ins : List MasterIn) : MasterState :=
  ins.foldl masterStep s

/-- Value of a registered output at each cycle of a run (the value the
register holds after each clock edge). -/
def traceWith (g : MasterState → Bool) (s : MasterState) : List MasterIn → List Bool
  | [] => []
  | i :: rest => g (masterStep s i) :: traceWith g (masterStep s i) rest

/-- Input sequence with the `go` bit held high, no TX write, the given
`miso` samples and a fixed TX storage word. -/
def shiftIns (tx : Nat) (ms : List Bool) : List MasterIn :=
  ms.map (fun m => MasterIn.mk true false m tx)

/-- Combinational read value of the `rx` CSR of `SpiMaster`:
`self.comb += self.rx.status.eq(self.rx_r)` mirrors the shift register
directly. -/
def rxStatusOf (s : MasterState) : Nat := s.rx_r

lemma masterRun_cons (s : MasterState) (i : MasterIn) (ins : List MasterIn) :
    masterRun s (i :: ins) = masterRun (masterStep s i) ins := rfl

lemma traceWith_cons (g : MasterState → Bool) (s : MasterState) (i : MasterIn)
    (ins : List MasterIn) :
    traceWith g s (i :: ins) = g (masterStep s i) :: traceWith g (masterStep s i) ins := rfl

lemma masterStep_start (s : MasterState) (i : MasterIn) (hrun : s.run = false)
    (hgd : s.go_d = false) (hgo : i.go_r = true) :
    masterStep s i = MasterState.mk true true (i.tx_storage % 32768 * 2)
      (rxShift s.rx_r i.miso) 15 true false false (i.tx_storage.testBit 15) := by
  simp [masterStep, hrun, hgd, hgo]

lemma masterStep_shift (s : MasterState) (i : MasterIn) (hrun : s.run = true)
    (hc : 0 < s.spicount) :
    masterStep s i = MasterState.mk true i.go_r (s.tx_r % 32768 * 2)
      (rxShift s.rx_r i.miso) (s.spicount - 1) s.tip_r s.txfull_r s.csn_r
      (s.tx_r.testBit 15) := by
  simp [masterStep, hrun, hc]

lemma masterStep_close (s : MasterState) (i : MasterIn) (hrun : s.run = true)
    (hc : s.spicount = 0) :
    masterStep s i = MasterState.mk false i.go_r s.tx_r s.rx_r s.spicount false
      s.txfull_r true s.mosi := by
  simp [masterStep, hrun, hc]

lemma masterStep_idle (s : MasterState) (i : MasterIn) (hrun : s.run = false)
    (hgd : s.go_d = true) (hgo : i.go_r = true) :
    masterStep s i = MasterState.mk false true s.tx_r s.rx_r s.spicount false
      (if i.tx_written then true else s.txfull_r) true s.mosi := by
  simp [masterStep, hrun, hgd, hgo]

lemma testBit_shiftLow (t : Nat) (k : Nat) (hk : k ≤ 14) :
    (t % 32768 * 2).testBit (k + 1) = t.testBit k := by
  have h2 : t % 32768 * 2 = 2 * (t % 32768) := by ring
  rw [h2, Nat.testBit_succ, Nat.mul_div_cancel_left _ (by norm_num : 0 < 2)]
  have h15 : (32768 : Nat) = 2 ^ 15 := by norm_num
  rw [h15, Nat.testBit_mod_two_pow]
  simp [Nat.lt_of_le_of_lt hk (by norm_num : (14 : Nat) < 15)]

lemma master_run_phase (tx : Nat) (ms : List Bool) :
    ∀ s : MasterState, s.run = true → ms.length ≤ s.spicount → s.spicount ≤ 15 →
      traceWith (fun st => st.mosi) s (shiftIns tx ms)
          = (List.range ms.length).map (fun k => s.tx_r.testBit (15 - k))
      ∧ traceWith (fun st => st.csn_r) s (shiftIns tx ms)
          = List.replicate ms.length s.csn_r
      ∧ traceWith (fun st => st.tip_r) s (shiftIns tx ms)
          = List.replicate ms.length s.tip_r
      ∧ (masterRun s (shiftIns tx ms)).run = true
      ∧ (masterRun s (shiftIns tx ms)).spicount = s.spicount - ms.length
      ∧ (masterRun s (shiftIns tx ms)).csn_r = s.csn_r
      ∧ (masterRun s (shiftIns tx ms)).tip_r = s.tip_r
      ∧ (masterRun s (shiftIns tx ms)).rx_r = ms.foldl rxShift s.rx_r := by
  induction ms with
  | nil =>
    intro s hrun _ _
    exact ⟨rfl, rfl, rfl, hrun, rfl, rfl, rfl, rfl⟩
  | cons m rest ih =>
    intro s hrun hlen h15
    have hlen2 : rest.length + 1 ≤ s.spicount := by simpa using hlen
    have hc : 0 < s.spicount := by omega
    have hstep := masterStep_shift s (MasterIn.mk true false m tx) hrun hc
    have hsh : shiftIns tx (m :: rest)
        = MasterIn.mk true false m tx :: shiftIns tx rest := rfl
    have ihs := ih (masterStep s (MasterIn.mk true false m tx))
        (by rw [hstep]) (by rw [hstep]; show rest.length ≤ s.spicount - 1; omega)
        (by rw [hstep]; show s.spicount - 1 ≤ 15; omega)
    obtain ⟨imosi, icsn, itip, irun, icount, icsn2, itip2, irx⟩ := ihs
    have hmap : (List.range rest.length).map
          (fun k => (masterStep s (MasterIn.mk true false m tx)).tx_r.testBit (15 - k))
        = (List.range rest.length).map (fun k => s.tx_r.testBit (14 - k)) := by
      refine List.map_congr_left ?_
      intro k hkmem
      have hk : k < rest.length := List.mem_range.mp hkmem
      have hk14 : 14 - k ≤ 14 := Nat.sub_le 14 k
      have h1514 : 15 - k = (14 - k) + 1 := by omega
      rw [hstep]
      show (s.tx_r % 32768 * 2).testBit (15 - k) = s.tx_r.testBit (14 - k)
      rw [h1514, testBit_shiftLow s.tx_r (14 - k) hk14]
    have hrange : s.tx_r.testBit 15 :: (List.range rest.length).map
          (fun k => s.tx_r.testBit (14 - k))
        = (List.range (rest.length + 1)).map (fun k => s.tx_r.testBit (15 - k)) := by
      rw [List.range_succ_eq_map, List.map_cons, List.map_map]
      refine congrArg₂ List.cons (by norm_num) ?_
      refine List.map_congr_left ?_
      intro k _
      show s.tx_r.testBit (14 - k) = s.tx_r.testBit (15 - (k + 1))
      congr 1
      omega
    refine ⟨?_, ?_, ?_, ?_, ?_, ?_, ?_, ?_⟩
    · rw [hsh, traceWith_cons, imosi, hmap]
      rw [show (masterStep s (MasterIn.mk true false m tx)).mosi
            = s.tx_r.testBit 15 by rw [hstep]]
      simpa using hrange
    · rw [hsh, traceWith_cons, icsn]
      rw [show (masterStep s (MasterIn.mk true false m tx)).csn_r = s.csn_r by rw [hstep]]
      simp [List.replicate_succ]
    · rw [hsh, traceWith_cons, itip]
      rw [show (masterStep s (MasterIn.mk true false m tx)).tip_r = s.tip_r by rw [hstep]]
      simp [List.replicate_succ]
    · rw [hsh, masterRun_cons]; exact irun
    · rw [hsh, masterRun_cons, icount]
      rw [show (masterStep s (MasterIn.mk true false m tx)).spicount
            = s.spicount - 1 by rw [hstep]]
      simp
      omega
    · rw [hsh, masterRun_cons, icsn2]
      rw [hstep]
    · rw [hsh, masterRun_cons, itip2]
      rw [hstep]
    · rw [hsh, masterRun_cons, irx]
      rw [show (masterStep s (MasterIn.mk true false m tx)).rx_r
            = rxShift s.rx_r m by rw [hstep]]
      rfl

lemma master_idle_hold (tx : Nat) (ms : List Bool) :
    ∀ s : MasterState, s.run = false → s.go_d = true →
      traceWith (fun st => st.tip_r) s (shiftIns tx ms) = List.replicate ms.length false
      ∧ traceWith (fun st => st.csn_r) s (shiftIns tx ms) = List.replicate ms.length true
      ∧ (masterRun s (shiftIns tx ms)).run = false := by
  induction ms with
  | nil => intro s hrun _; exact ⟨rfl, rfl, hrun⟩
  | cons m rest ih =>
    intro s hrun hgd
    have hstep := masterStep_idle s (MasterIn.mk true false m tx) hrun hgd rfl
    have hsh : shiftIns tx (m :: rest)
        = MasterIn.mk true false m tx :: shiftIns tx rest := rfl
    have ihs := ih (masterStep s (MasterIn.mk true false m tx))
        (by rw [hstep]) (by rw [hstep])
    refine ⟨?_, ?_, ?_⟩
    · rw [hsh, traceWith_cons, ihs.1,
        show (masterStep s (MasterIn.mk true false m tx)).tip_r = false by rw [hstep]]
      simp [List.replicate_succ]
    · rw [hsh, traceWith_cons, ihs.2.1,
        show (masterStep s (MasterIn.mk true false m tx)).csn_r = true by rw [hstep]]
      simp [List.replicate_succ]
    · rw [hsh, masterRun_cons]; exact ihs.2.2

/-- C4: from IDLE with the edge detector quiescent, holding `go` high starts
exactly one transaction: over the 16 data cycles the `mosi` register outputs
the 16 bits of the written TX word most-significant-bit first while 16 `miso`
samples are shifted into `rx_r`, chip select is held low and
transaction-in-progress high for all 16 cycles, the bit counter reaches zero,
and on the following cycle the FSM returns to IDLE with `tip` and chip select
deasserted; with `go` still held high for arbitrarily many further cycles
`tip` stays low, chip select stays high and the FSM stays in IDLE — no
retriggering. -/
theorem master_one_transaction_per_go_edge (s0 : MasterState) (tx : Nat)
    (ms : List Bool) (mc : Bool) (rest : List Bool)
    (hrun : s0.run = false) (hgd : s0.go_d = false) (hlen : ms.length = 16) :
    traceWith (fun st => st.mosi) s0 (shiftIns tx ms)
        = (List.range 16).map (fun k => tx.testBit (15 - k))
    ∧ traceWith (fun st => st.csn_r) s0 (shiftIns tx ms) = List.replicate 16 false
    ∧ traceWith (fun st => st.tip_r) s0 (shiftIns tx ms) = List.replicate 16 true
    ∧ (masterRun s0 (shiftIns tx ms)).rx_r = ms.foldl rxShift s0.rx_r
    ∧ (masterRun s0 (shiftIns tx ms)).spicount = 0
    ∧ (masterRun s0 (shiftIns tx (ms ++ [mc]))).run = false
    ∧ (masterRun s0 (shiftIns tx (ms ++ [mc]))).tip_r = false
    ∧ (masterRun s0 (shiftIns tx (ms ++ [mc]))).csn_r = true
    ∧ traceWith (fun st => st.tip_r) (masterRun s0 (shiftIns tx (ms ++ [mc])))
        (shiftIns tx rest) = List.replicate rest.length false
    ∧ traceWith (fun st => st.csn_r) (masterRun s0 (shiftIns tx (ms ++ [mc])))
        (shiftIns tx rest) = List.replicate rest.length true
    ∧ (masterRun (masterRun s0 (shiftIns tx (ms ++ [mc])))
        (shiftIns tx rest)).run = false := by
  cases ms with
  | nil => simp at hlen
  | cons m0 ms1 =>
    have hlen1 : ms1.length = 15 := by simpa using hlen
    have hstart := masterStep_start s0 (MasterIn.mk true false m0 tx) hrun hgd rfl
    have hsh : shiftIns tx (m0 :: ms1)
        = MasterIn.mk true false m0 tx :: shiftIns tx ms1 := rfl
    have hphase := master_run_phase tx ms1 (masterStep s0 (MasterIn.mk true false m0 tx))
        (by rw [hstart]) (by rw [hstart]; show ms1.length ≤ 15; omega)
        (by rw [hstart])
    obtain ⟨pmosi, pcsn, ptip, prun, pcount, pcsn2, ptip2, prx⟩ := hphase
    have htx1 : (masterStep s0 (MasterIn.mk true false m0 tx)).tx_r
        = tx % 32768 * 2 := by rw [hstart]
    have hmap : (List.range ms1.length).map
          (fun k => (masterStep s0 (MasterIn.mk true false m0 tx)).tx_r.testBit (15 - k))
        = (List.range ms1.length).map (fun k => tx.testBit (14 - k)) := by
      refine List.map_congr_left ?_
      intro k hkmem
      have hk : k < ms1.length := List.mem_range.mp hkmem
      have h1514 : 15 - k = (14 - k) + 1 := by omega
      rw [htx1, h1514, testBit_shiftLow tx (14 - k) (Nat.sub_le 14 k)]
    have hrange : tx.testBit 15 :: (List.range 15).map (fun k => tx.testBit (14 - k))
        = (List.range 16).map (fun k => tx.testBit (15 - k)) := by
      rfl
    have hdata16 : traceWith (fun st => st.mosi) s0 (shiftIns tx (m0 :: ms1))
        = (List.range 16).map (fun k => tx.testBit (15 - k)) := by
      rw [hsh, traceWith_cons, pmosi, hmap, hlen1,
        show (masterStep s0 (MasterIn.mk true false m0 tx)).mosi
          = tx.testBit 15 by rw [hstart]]
      exact hrange
    have hcsn16 : traceWith (fun st => st.csn_r) s0 (shiftIns tx (m0 :: ms1))
        = List.replicate 16 false := by
      rw [hsh, traceWith_cons, pcsn, hlen1,
        show (masterStep s0 (MasterIn.mk true false m0 tx)).csn_r = false by rw [hstart]]
      rfl
    have htip16 : traceWith (fun st => st.tip_r) s0 (shiftIns tx (m0 :: ms1))
        = List.replicate 16 true := by
      rw [hsh, traceWith_cons, ptip, hlen1,
        show (masterStep s0 (MasterIn.mk true false m0 tx)).tip_r = true by rw [hstart]]
      rfl
    have hrx16 : (masterRun s0 (shiftIns tx (m0 :: ms1))).rx_r
        = (m0 :: ms1).foldl rxShift s0.rx_r := by
      rw [hsh, masterRun_cons, prx,
        show (masterStep s0 (MasterIn.mk true false m0 tx)).rx_r
          = rxShift s0.rx_r m0 by rw [hstart]]
      rfl
    have hcount16 : (masterRun s0 (shiftIns tx (m0 :: ms1))).spicount = 0 := by
      rw [hsh, masterRun_cons, pcount, hlen1,
        show (masterStep s0 (MasterIn.mk true false m0 tx)).spicount = 15 by rw [hstart]]
    have hrun16 : (masterRun s0 (shiftIns tx (m0 :: ms1))).run = true := by
      rw [hsh, masterRun_cons]; exact prun
    have happ : shiftIns tx ((m0 :: ms1) ++ [mc])
        = shiftIns tx (m0 :: ms1) ++ [MasterIn.mk true false mc tx] := by
      simp [shiftIns]
    have hrunapp : masterRun s0 (shiftIns tx ((m0 :: ms1) ++ [mc]))
        = masterStep (masterRun s0 (shiftIns tx (m0 :: ms1)))
            (MasterIn.mk true false mc tx) := by
      rw [happ]
      simp [masterRun, List.foldl_append]
    have hclose := masterStep_close (masterRun s0 (shiftIns tx (m0 :: ms1)))
        (MasterIn.mk true false mc tx) hrun16 hcount16
    have hcrun : (masterRun s0 (shiftIns tx ((m0 :: ms1) ++ [mc]))).run = false := by
      rw [hrunapp, hclose]
    have hctip : (masterRun s0 (shiftIns tx ((m0 :: ms1) ++ [mc]))).tip_r = false := by
      rw [hrunapp, hclose]
    have hccsn : (masterRun s0 (shiftIns tx ((m0 :: ms1) ++ [mc]))).csn_r = true := by
      rw [hrunapp, hclose]
    have hcgd : (masterRun s0 (shiftIns tx ((m0 :: ms1) ++ [mc]))).go_d = true := by
      rw [hrunapp, hclose]
    have hidle := master_idle_hold tx rest
        (masterRun s0 (shiftIns tx ((m0 :: ms1) ++ [mc]))) hcrun hcgd
    exact ⟨hdata16, hcsn16, htip16, hrx16, hcount16, hcrun, hctip, hccsn,
      hidle.1, hidle.2.1, hidle.2.2⟩

/-- Witness for C4 at a concrete idle state, TX word 43981 and an all-ones
miso sequence, with `go` held high for two further cycles. -/
theorem master_one_transaction_per_go_edge_witness :
    traceWith (fun st => st.mosi) (MasterState.mk false false 0 0 0 false false true false)
        (shiftIns 43981 (List.replicate 16 true))
        = (List.range 16).map (fun k => (43981 : Nat).testBit (15 - k))
    ∧ traceWith (fun st => st.csn_r) (MasterState.mk false false 0 0 0 false false true false)
        (shiftIns 43981 (List.replicate 16 true)) = List.replicate 16 false
    ∧ traceWith (fun st => st.tip_r) (MasterState.mk false false 0 0 0 false false true false)
        (shiftIns 43981 (List.replicate 16 true)) = List.replicate 16 true
    ∧ (masterRun (MasterState.mk false false 0 0 0 false false true false)
        (shiftIns 43981 (List.replicate 16 true))).rx_r
        = (List.replicate 16 true).foldl rxShift
            (MasterState.mk false false 0 0 0 false false true false).rx_r
    ∧ (masterRun (MasterState.mk false false 0 0 0 false false true false)
        (shiftIns 43981 (List.replicate 16 true))).spicount = 0
    ∧ (masterRun (MasterState.mk false false 0 0 0 false false true false)
        (shiftIns 43981 (List.replicate 16 true ++ [false]))).run = false
    ∧ (masterRun (MasterState.mk false false 0 0 0 false false true false)
        (shiftIns 43981 (List.replicate 16 true ++ [false]))).tip_r = false
    ∧ (masterRun (MasterState.mk false false 0 0 0 false false true false)
        (shiftIns 43981 (List.replicate 16 true ++ [false]))).csn_r = true
    ∧ traceWith (fun st => st.tip_r)
        (masterRun (MasterState.mk false false 0 0 0 false false true false)
          (shiftIns 43981 (List.replicate 16 true ++ [false])))
        (shiftIns 43981 [false, true])
        = List.replicate (List.length [false, true]) false
    ∧ traceWith (fun st => st.csn_r)
        (masterRun (MasterState.mk false false 0 0 0 false false true false)
          (shiftIns 43981 (List.replicate 16 true ++ [false])))
        (shiftIns 43981 [false, true])
        = List.replicate (List.length [false, true]) true
    ∧ (masterRun (masterRun (MasterState.mk false false 0 0 0 false false true false)
          (shiftIns 43981 (List.replicate 16 true ++ [false])))
        (shiftIns 43981 [false, true])).run = false :=
  master_one_transaction_per_go_edge
    (MasterState.mk false false 0 0 0 false false true false)
    43981 (List.replicate 16 true) false [false, true] rfl rfl rfl

/-- C10: the `rx` CSR read port of `SpiMaster` mirrors the internal shift
register combinationally, so during a transaction, while `tip_r` is set, a
host read returns the partially shifted in-progress contents (the prior
register contents shifted through the miso samples seen so far) rather than
the previously completed word; the port equals the fully received word once
the transaction completes and `tip_r` deasserts. -/
theorem master_rx_port_mirrors_shift_register (s0 : MasterState) (tx : Nat)
    (ms : List Bool) (mc : Bool)
    (hrun : s0.run = false) (hgd : s0.go_d = false) (hlen : ms.length = 16) :
    (∀ k : Nat, 0 < k → k ≤ 16 →
        (masterRun s0 (shiftIns tx (ms.take k))).tip_r = true
        ∧ rxStatusOf (masterRun s0 (shiftIns tx (ms.take k)))
            = (ms.take k).foldl rxShift s0.rx_r)
    ∧ (masterRun s0 (shiftIns tx (ms ++ [mc]))).tip_r = false
    ∧ rxStatusOf (masterRun s0 (shiftIns tx (ms ++ [mc])))
        = ms.foldl rxShift s0.rx_r := by
  cases ms with
  | nil => simp at hlen
  | cons m0 ms1 =>
    have hlen1 : ms1.length = 15 := by simpa using hlen
    have hstart := masterStep_start s0 (MasterIn.mk true false m0 tx) hrun hgd rfl
    refine ⟨?_, ?_, ?_⟩
    · intro k hk0 hk16
      obtain ⟨j, rfl⟩ : ∃ j, k = j + 1 := ⟨k - 1, by omega⟩
      have htake : (m0 :: ms1).take (j + 1) = m0 :: ms1.take j := rfl
      have hshj : shiftIns tx (m0 :: ms1.take j)
          = MasterIn.mk true false m0 tx :: shiftIns tx (ms1.take j) := rfl
      have hphase := master_run_phase tx (ms1.take j)
          (masterStep s0 (MasterIn.mk true false m0 tx))
          (by rw [hstart])
          (by rw [hstart]; show (ms1.take j).length ≤ 15; rw [List.length_take]; omega)
          (by rw [hstart])
      refine ⟨?_, ?_⟩
      · rw [htake, hshj, masterRun_cons, hphase.2.2.2.2.2.2.1, hstart]
      · rw [htake, hshj]
        show (masterRun (masterStep s0 (MasterIn.mk true false m0 tx))
            (shiftIns tx (ms1.take j))).rx_r
          = (ms1.take j).foldl rxShift
              (rxShift s0.rx_r m0)
        rw [hphase.2.2.2.2.2.2.2,
          show (masterStep s0 (MasterIn.mk true false m0 tx)).rx_r
            = rxShift s0.rx_r m0 by rw [hstart]]
    all_goals {
      have hphase := master_run_phase tx ms1
          (masterStep s0 (MasterIn.mk true false m0 tx))
          (by rw [hstart]) (by rw [hstart]; show ms1.length ≤ 15; omega)
          (by rw [hstart])
      have hrun16 : (masterRun s0 (shiftIns tx (m0 :: ms1))).run = true :=
        hphase.2.2.2.1
      have hcount16 : (masterRun s0 (shiftIns tx (m0 :: ms1))).spicount = 0 := by
        have := hphase.2.2.2.2.1
        rw [show shiftIns tx (m0 :: ms1)
            = MasterIn.mk true false m0 tx :: shiftIns tx ms1 from rfl,
          masterRun_cons, this, hlen1,
          show (masterStep s0 (MasterIn.mk true false m0 tx)).spicount = 15
            by rw [hstart]]
      have happ : shiftIns tx ((m0 :: ms1) ++ [mc])
          = shiftIns tx (m0 :: ms1) ++ [MasterIn.mk true false mc tx] := by
        simp [shiftIns]
      have hrunapp : masterRun s0 (shiftIns tx ((m0 :: ms1) ++ [mc]))
          = masterStep (masterRun s0 (shiftIns tx (m0 :: ms1)))
              (MasterIn.mk true false mc tx) := by
        rw [happ]
        simp [masterRun, List.foldl_append]
      have hclose := masterStep_close (masterRun s0 (shiftIns tx (m0 :: ms1)))
          (MasterIn.mk true false mc tx) hrun16 hcount16
      have hrx16 : (masterRun s0 (shiftIns tx (m0 :: ms1))).rx_r
          = (m0 :: ms1).foldl rxShift s0.rx_r := by
        rw [show shiftIns tx (m0 :: ms1)
            = MasterIn.mk true false m0 tx :: shiftIns tx ms1 from rfl,
          masterRun_cons, hphase.2.2.2.2.2.2.2,
          show (masterStep s0 (MasterIn.mk true false m0 tx)).rx_r
            = rxShift s0.rx_r m0 by rw [hstart]]
        rfl
      first
      | (rw [hrunapp, hclose]; exact hrx16)
      | (rw [hrunapp, hclose])
    }

/-- Witness for C10 at a concrete idle state and a concrete miso sequence,
evaluated at the 16th data cycle. -/
theorem master_rx_port_mirrors_shift_register_witness :
    ((masterRun (MasterState.mk false false 0 7 0 false false true false)
        (shiftIns 5 ((List.replicate 15 true ++ [false]).take 16))).tip_r = true
      ∧ rxStatusOf (masterRun (MasterState.mk false false 0 7 0 false false true false)
          (shiftIns 5 ((List.replicate 15 true ++ [false]).take 16)))
        = ((List.replicate 15 true ++ [false]).take 16).foldl rxShift
            (MasterState.mk false false 0 7 0 false false true false).rx_r)
    ∧ (masterRun (MasterState.mk false false 0 7 0 false false true false)
        (shiftIns 5 ((List.replicate 15 true ++ [false]) ++ [true]))).tip_r = false
    ∧ rxStatusOf (masterRun (MasterState.mk false false 0 7 0 false false true false)
        (shiftIns 5 ((List.replicate 15 true ++ [false]) ++ [true])))
      = (List.replicate 15 true ++ [false]).foldl rxShift
          (MasterState.mk false false 0 7 0 false false true false).rx_r :=
  have h := master_rx_port_mirrors_shift_register
    (MasterState.mk false false 0 7 0 false false true false) 5
    (List.replicate 15 true ++ [false]) true rfl rfl (by decide)
  ⟨h.1 16 (by decide) (by decide), h.2.1, h.2.2⟩

end Spi
